import Mathlib

/-!
Verification development for the MLOps-PlantProject simulation-and-aggregation
core (src/Data/dataset.py and src/Data/local_host_data.py).

The Python source is shallowly embedded over the real numbers:
* stochastic draws (np.random.normal, np.random.rand, np.random.uniform) become
  explicit per-step inputs carried in an EnvInput stream;
* numpy arrays become Lists of reals;
* Python `int(x)` (truncation toward zero) is modelled by pyTrunc;
* np.linspace, np.clip, np.maximum, np.percentile (linear interpolation) are
  modelled by the corresponding real-valued functions below;
* the implicit runtime errors Python raises for a degenerate configuration
  (float division by zero, np.zeros of a negative size, indexing an empty
  array) are modelled by the Except-returning entry point full_data_call.
-/

noncomputable section

/-! ### Basic numeric modelling helpers -/

/-- Python `int(x)` on a float: truncation toward zero. -/
def pyTrunc (x : ℝ) : ℤ := if 0 ≤ x then ⌊x⌋ else -⌊-x⌋

/-- `np.clip(x, lo, hi) = np.minimum(hi, np.maximum(x, lo))`. -/
def npClip (x lo hi : ℝ) : ℝ := min (max x lo) hi

/-! ### Configuration and per-step random inputs -/

/-- The keyword parameters of `full_data` in src/Data/dataset.py. -/
structure Config where
  total_time_minutes : ℝ
  time_step : ℝ
  theta_init : ℝ
  theta_pwp : ℝ
  K_soil : ℝ
  K_crop : ℝ
  lambda_base : ℝ
  c_temp : ℝ
  c_light : ℝ
  L_peak : ℝ
  T_avg : ℝ
  T_amplitude : ℝ
  T_lag : ℝ

/-- The random draws consumed by one simulation step: the light noise
(np.random.normal(0,5)), the cloud event (np.random.rand() < 0.05), the
cloud factor (np.random.uniform(0.1,0.4)) and the temperature noise
(np.random.normal(0,0.2)). -/
structure EnvInput where
  lightNoise : ℝ
  cloudHit : Bool
  cloudFactor : ℝ
  tempNoise : ℝ

/-! ### EnvironmentModel: get_light / get_temperature -/

/-- `get_light(t, L_peak)` from src/Data/dataset.py, with the random draws
made explicit. Light is a truncated cosine peaking at t = 720, attenuated by
a cloud factor when the cloud event fires and the base light is positive,
plus noise, clipped at 0. -/
def get_light (t L_peak noise : ℝ) (cloudHit : Bool) (cloudFactor : ℝ) : ℝ :=
  let cos_val := Real.cos (2 * Real.pi / 1440 * (t - 720))
  let L := max 0 (L_peak * cos_val)
  let L2 := if cloudHit = true ∧ 0 < L then L * (1 - cloudFactor) else L
  max 0 (L2 + noise)

/-- `get_temperature(t, T_avg, A, t_lag)` from src/Data/dataset.py, with
the Gaussian noise made explicit. -/
def get_temperature (t T_avg A t_lag noise : ℝ) : ℝ :=
  T_avg + A * Real.cos (2 * Real.pi / 1440 * (t - (720 + t_lag))) + noise

/-! ### DecayRateCalculator: calculate_lambda -/

/-- `calculate_lambda` from src/Data/dataset.py: base soil decay plus the
crop-scaled environmental term; when theta is at or below the wilting point
the rate is scaled by the stress coefficient clip((theta/theta_pwp)^2, 0.05, 1). -/
def calculate_lambda (T L theta K_soil K_crop lambda_base c_temp c_light theta_pwp : ℝ) : ℝ :=
  let lambda_base_soil := lambda_base * K_soil
  let lambda_env := K_crop * (c_temp * T + c_light * L)
  let lambda_total := lambda_base_soil + lambda_env
  if theta ≤ theta_pwp then
    lambda_total * npClip ((theta / theta_pwp) ^ 2) 0.05 1.0
  else
    lambda_total

/-! ### MoistureSimulator: full_data -/

/-- `total_steps = int(total_time_minutes / time_step)` in full_data. -/
def totalSteps (cfg : Config) : ℤ := pyTrunc (cfg.total_time_minutes / cfg.time_step)

/-- The number of samples of each produced series (nonnegative part of
totalSteps; the entry point errors out before building arrays otherwise). -/
def nSteps (cfg : Config) : ℕ := (totalSteps cfg).toNat

/-- Entry i of `np.linspace(0, total_time_minutes, total_steps)`:
i * total_time_minutes / (total_steps - 1). (For total_steps ≤ 1 the
subtraction and Lean division by zero both give 0, matching np.linspace
which returns [0.] for one point and [] for zero points.) -/
def timeVal (cfg : Config) (i : ℕ) : ℝ :=
  cfg.total_time_minutes * i / ((nSteps cfg - 1 : ℕ) : ℝ)

/-- The light sample `L_i = get_light(time[i], L_peak)` of step i. -/
def lightAt (cfg : Config) (env : ℕ → EnvInput) (i : ℕ) : ℝ :=
  get_light (timeVal cfg i) cfg.L_peak (env i).lightNoise (env i).cloudHit (env i).cloudFactor

/-- The temperature sample `T_i = get_temperature(time[i], T_avg, T_amplitude, T_lag)`. -/
def tempAt (cfg : Config) (env : ℕ → EnvInput) (i : ℕ) : ℝ :=
  get_temperature (timeVal cfg i) cfg.T_avg cfg.T_amplitude cfg.T_lag (env i).tempNoise

/-- The moisture recurrence of full_data's loop: `humidity_data[0] = theta_init`;
then for each step, the watering-reset guard (threshold 25.0) is applied,
lambda is computed from the post-reset value, and the exponential update
toward theta_pwp is clamped at 0 by np.maximum. -/
def thetaSeq (cfg : Config) (env : ℕ → EnvInput) : ℕ → ℝ
  | 0 => cfg.theta_init
  | i + 1 =>
      let theta_r := if thetaSeq cfg env i ≤ 25 then cfg.theta_init else thetaSeq cfg env i
      max 0 ((theta_r - cfg.theta_pwp) *
          Real.exp (-(calculate_lambda (tempAt cfg env i) (lightAt cfg env i) theta_r
              cfg.K_soil cfg.K_crop cfg.lambda_base cfg.c_temp cfg.c_light cfg.theta_pwp) *
            cfg.time_step) +
        cfg.theta_pwp)

/-- The moisture value actually passed to calculate_lambda and to the
exponential update in step i: the pre-step value after the watering-reset
guard. -/
def resetTheta (cfg : Config) (env : ℕ → EnvInput) (i : ℕ) : ℝ :=
  if thetaSeq cfg env i ≤ 25 then cfg.theta_init else thetaSeq cfg env i

/-- The decay rate lambda_i computed in step i of full_data. -/
def lambdaAt (cfg : Config) (env : ℕ → EnvInput) (i : ℕ) : ℝ :=
  calculate_lambda (tempAt cfg env i) (lightAt cfg env i) (resetTheta cfg env i)
    cfg.K_soil cfg.K_crop cfg.lambda_base cfg.c_temp cfg.c_light cfg.theta_pwp

theorem thetaSeq_zero (cfg : Config) (env : ℕ → EnvInput) :
    thetaSeq cfg env 0 = cfg.theta_init := rfl

theorem thetaSeq_succ (cfg : Config) (env : ℕ → EnvInput) (i : ℕ) :
    thetaSeq cfg env (i + 1) =
      max 0 ((resetTheta cfg env i - cfg.theta_pwp) *
          Real.exp (-(lambdaAt cfg env i) * cfg.time_step) + cfg.theta_pwp) := rfl

/-- The four series returned by `full_data`. -/
structure SimOutput where
  time : List ℝ
  humidity : List ℝ
  light : List ℝ
  temp : List ℝ

/-- `full_data` from src/Data/dataset.py (the successfully-built series).
humidity follows the recurrence; light and temperature are written by the
loop only at indices 0 .. total_steps-2 and keep the np.zeros value 0.0 at
the last index. -/
def full_data (cfg : Config) (env : ℕ → EnvInput) : SimOutput :=
  let N := nSteps cfg
  { time := (List.range N).map (timeVal cfg)
    humidity := (List.range N).map (thetaSeq cfg env)
    light := (List.range N).map (fun i => if i < N - 1 then lightAt cfg env i else 0)
    temp := (List.range N).map (fun i => if i < N - 1 then tempAt cfg env i else 0) }

/-- The runtime errors a call of full_data can raise in Python, plus the
invalid-configuration kind the specification postulates (spec section 7);
the latter is present only so that theorems can state that the code never
produces it. -/
inductive PyErr where
  | invalidConfig
  | zeroDivisionError
  | valueError
  | indexError

/-- A call of `full_data` including Python's implicit failure modes:
`time_step = 0` raises ZeroDivisionError at `total_time_minutes / time_step`;
a negative computed step count raises ValueError at the array allocations;
a zero step count raises IndexError at `humidity_data[0] = theta_init`.
One further error can arise inside the loop: `calculate_lambda` evaluates
`theta / theta_pwp` in its stress branch, and at step 0 the post-reset
moisture is the plain Python float theta_init (for theta_init ≤ 0 ≤ 25 the
watering reset has just reassigned it), so with theta_pwp = 0 and
theta_init ≤ 0 that division raises ZeroDivisionError as soon as the loop
body runs (total_steps ≥ 2). No other configuration reaches a zero division
there: with theta_pwp = 0 and theta_init > 0 every simulated moisture stays
strictly positive, so the stress branch (theta ≤ 0) never executes; and
moisture values produced by the update are numpy scalars, whose division by
zero yields nan rather than raising, but under the real semantics they never
enter the stress branch when theta_pwp = 0. -/
def full_data_call (cfg : Config) (env : ℕ → EnvInput) : Except PyErr SimOutput :=
  if cfg.time_step = 0 then .error .zeroDivisionError
  else if totalSteps cfg < 0 then .error .valueError
  else if totalSteps cfg = 0 then .error .indexError
  else if cfg.theta_pwp = 0 ∧ cfg.theta_init ≤ 0 ∧ 2 ≤ totalSteps cfg then
    .error .zeroDivisionError
  else .ok (full_data cfg env)

/-! ### WindowAggregator: synthetic_dataset -/

/-- `np.mean` of a block (sum over length; 0 on the empty list since 0/0 = 0). -/
def np_mean (xs : List ℝ) : ℝ := xs.sum / xs.length

/-- `np.min` of a block. -/
def np_min : List ℝ → ℝ
  | [] => 0
  | x :: xs => xs.foldl min x

/-- `np.max` of a block. -/
def np_max : List ℝ → ℝ
  | [] => 0
  | x :: xs => xs.foldl max x

/-- Linear interpolation at virtual position pos inside a sorted list, as
np.percentile does: value = s[floor pos] + (pos - floor pos) * (s[ceil pos] - s[floor pos]). -/
def interpSorted (s : List ℝ) (pos : ℝ) : ℝ :=
  s.getD ⌊pos⌋₊ 0 + (pos - (⌊pos⌋₊ : ℝ)) * (s.getD ⌈pos⌉₊ 0 - s.getD ⌊pos⌋₊ 0)

/-- `np.percentile(xs, q)` with the default linear interpolation: sort, then
interpolate at position (q/100) * (len - 1). -/
def np_percentile (q : ℝ) (xs : List ℝ) : ℝ :=
  interpSorted (xs.insertionSort (· ≤ ·)) (q / 100 * ((xs.length - 1 : ℕ) : ℝ))

/-- Block j of a series under block size k: samples j*k .. j*k + k - 1
(row-major reshape into rows of k elements). -/
def blockOf (k : ℕ) (xs : List ℝ) (j : ℕ) : List ℝ := ((xs.drop (j * k)).take k)

/-- The five per-signal statistics of one block, in the column order of
synthetic_dataset: mean, min, max, 25th percentile, 75th percentile. -/
def blockStats (b : List ℝ) : List ℝ :=
  [np_mean b, np_min b, np_max b, np_percentile 25 b, np_percentile 75 b]

/-- The rows of the aggregated table built by synthetic_dataset: one row per
complete block (num_blocks = data_len // k, computed from the humidity
series), each row the humidity stats then the light stats then the
temperature stats. -/
def aggRows (k : ℕ) (hum light temp : List ℝ) : List (List ℝ) :=
  (List.range (hum.length / k)).map fun j =>
    blockStats (blockOf k hum j) ++ blockStats (blockOf k light j) ++ blockStats (blockOf k temp j)

/-- `synthetic_dataset(k, ...)` from src/Data/dataset.py: run full_data, then
aggregate the three signal series into per-block statistics rows. (The CSV
write is I/O and not part of the table contents.) -/
def synthetic_dataset (k : ℕ) (cfg : Config) (env : ℕ → EnvInput) : List (List ℝ) :=
  let o := full_data cfg env
  aggRows k o.humidity o.light o.temp

/-! ### Streaming: stream_data from src/Data/local_host_data.py -/

/-- The first level of the output MultiIndex columns in synthetic_dataset. -/
def varNames : List String := ["humidity", "light_data", "temp_data"]

/-- The second level (statistics) of the output columns, in fixed order. -/
def statNames : List String := ["mean", "min", "max", "25%", "75%"]

/-- The flattened column names computed in stream_data:
underscore-join of each (variable, statistic) pair of the MultiIndex
product. (The .strip() in the source is the identity here: no column name
carries surrounding whitespace.) -/
def flat_columns : List String :=
  (varNames.map fun v => statNames.map fun s => v ++ "_" ++ s).flatten

/-- One streamed JSON message: either a data record with the row index and
the flattened-name/value pairs, or the terminal status sentinel. -/
inductive StreamMsg where
  | record (index : ℕ) (data : List (String × ℝ))
  | complete

/-- `stream_data(df)` from src/Data/local_host_data.py as the sequence of
messages it yields: one record per row (index = the default RangeIndex
position, data = flattened column names zipped with the row values),
followed by the Stream-complete sentinel. The time.sleep pacing does not
change the message sequence. -/
def stream_data (df : List (List ℝ)) : List StreamMsg :=
  (df.enum.map fun p => StreamMsg.record p.1 (flat_columns.zip p.2)) ++ [StreamMsg.complete]

/-! ### Indexing helpers -/

theorem getD_map_range {α : Type} (f : ℕ → α) (d : α) {i N : ℕ} (h : i < N) :
    ((List.range N).map f).getD i d = f i := by
  have hl : i < ((List.range N).map f).length := by simpa using h
  rw [List.getD_eq_getElem _ d hl, List.getElem_map, List.getElem_range]

theorem humidity_length (cfg : Config) (env : ℕ → EnvInput) :
    (full_data cfg env).humidity.length = nSteps cfg := by
  simp [full_data]

theorem time_length (cfg : Config) (env : ℕ → EnvInput) :
    (full_data cfg env).time.length = nSteps cfg := by
  simp [full_data]

theorem humidity_getD (cfg : Config) (env : ℕ → EnvInput) {i : ℕ} (hi : i < nSteps cfg)
    (d : ℝ) : (full_data cfg env).humidity.getD i d = thetaSeq cfg env i := by
  simp only [full_data]
  exact getD_map_range _ d hi

theorem time_getD (cfg : Config) (env : ℕ → EnvInput) {i : ℕ} (hi : i < nSteps cfg)
    (d : ℝ) : (full_data cfg env).time.getD i d = timeVal cfg i := by
  simp only [full_data]
  exact getD_map_range _ d hi

theorem light_getD (cfg : Config) (env : ℕ → EnvInput) {i : ℕ} (hi : i < nSteps cfg)
    (d : ℝ) : (full_data cfg env).light.getD i d =
      if i < nSteps cfg - 1 then lightAt cfg env i else 0 := by
  simp only [full_data]
  exact getD_map_range _ d hi

theorem temp_getD (cfg : Config) (env : ℕ → EnvInput) {i : ℕ} (hi : i < nSteps cfg)
    (d : ℝ) : (full_data cfg env).temp.getD i d =
      if i < nSteps cfg - 1 then tempAt cfg env i else 0 := by
  simp only [full_data]
  exact getD_map_range _ d hi

/-! ### Concrete configurations and environment streams used by witnesses -/

/-- A small run with the source's default parameters and a two-sample horizon. -/
def cfgSmall : Config :=
  ⟨20, 10, 90, 15, 0.8, 0.6, 0.00005, 0.000015, 0.00002, 1000, 22, 3, 120⟩

/-- Like cfgSmall but with theta_init = 20, so the watering threshold is hit
at step 0. -/
def cfgInit20 : Config :=
  ⟨20, 10, 20, 15, 0.8, 0.6, 0.00005, 0.000015, 0.00002, 1000, 22, 3, 120⟩

/-- The all-zero random stream: no noise, no cloud events. -/
def envZ : ℕ → EnvInput := fun _ => ⟨0, false, 0, 0⟩

theorem nSteps_cfgSmall : nSteps cfgSmall = 2 := by
  have h : totalSteps cfgSmall = 2 := by norm_num [totalSteps, pyTrunc, cfgSmall]
  simp [nSteps, h]

theorem nSteps_cfgInit20 : nSteps cfgInit20 = 2 := by
  have h : totalSteps cfgInit20 = 2 := by norm_num [totalSteps, pyTrunc, cfgInit20]
  simp [nSteps, h]

/-! ### Claims C1, C2, C10 -/

/-- C1: in every simulation step whose pre-step moisture is at or below the
watering threshold 25.0, the moisture passed to calculate_lambda and used as
the base of that step's exponential update is exactly theta_init: the reset
happens before the decay computation of the same step. -/
theorem C1_reset_before_decay (cfg : Config) (env : ℕ → EnvInput) (i : ℕ)
    (hi : i + 1 < (full_data cfg env).humidity.length)
    (h25 : (full_data cfg env).humidity.getD i 0 ≤ 25) :
    (full_data cfg env).humidity.getD (i + 1) 0 =
      max 0 ((cfg.theta_init - cfg.theta_pwp) *
          Real.exp (-(calculate_lambda (tempAt cfg env i) (lightAt cfg env i) cfg.theta_init
              cfg.K_soil cfg.K_crop cfg.lambda_base cfg.c_temp cfg.c_light cfg.theta_pwp) *
            cfg.time_step) + cfg.theta_pwp) := by
  rw [humidity_length] at hi
  rw [humidity_getD cfg env (Nat.lt_of_succ_lt hi)] at h25
  rw [humidity_getD cfg env hi, thetaSeq_succ]
  simp only [resetTheta, lambdaAt, if_pos h25]

theorem C1_witness :
    (full_data cfgInit20 envZ).humidity.getD 1 0 =
      max 0 ((cfgInit20.theta_init - cfgInit20.theta_pwp) *
          Real.exp (-(calculate_lambda (tempAt cfgInit20 envZ 0) (lightAt cfgInit20 envZ 0)
              cfgInit20.theta_init cfgInit20.K_soil cfgInit20.K_crop cfgInit20.lambda_base
              cfgInit20.c_temp cfgInit20.c_light cfgInit20.theta_pwp) *
            cfgInit20.time_step) + cfgInit20.theta_pwp) := by
  refine C1_reset_before_decay cfgInit20 envZ 0 ?_ ?_
  · rw [humidity_length, nSteps_cfgInit20]
    norm_num
  · rw [humidity_getD cfgInit20 envZ (by rw [nSteps_cfgInit20]; norm_num)]
    norm_num [thetaSeq, cfgInit20]

/-- C2: the humidity series of full_data starts at theta_init, and each
successor entry is obtained from the previous entry by applying the
watering-reset guard, computing lambda via calculate_lambda on the
post-guard value, taking the exponential decay step toward theta_pwp over
one time_step, and clamping the result at 0. -/
theorem C2_exponential_update (cfg : Config) (env : ℕ → EnvInput) :
    (0 < (full_data cfg env).humidity.length →
      (full_data cfg env).humidity.getD 0 0 = cfg.theta_init) ∧
    ∀ i, i + 1 < (full_data cfg env).humidity.length →
      (full_data cfg env).humidity.getD (i + 1) 0 =
        max 0 (((if (full_data cfg env).humidity.getD i 0 ≤ 25 then cfg.theta_init
                  else (full_data cfg env).humidity.getD i 0) - cfg.theta_pwp) *
            Real.exp (-(calculate_lambda (tempAt cfg env i) (lightAt cfg env i)
                (if (full_data cfg env).humidity.getD i 0 ≤ 25 then cfg.theta_init
                  else (full_data cfg env).humidity.getD i 0)
                cfg.K_soil cfg.K_crop cfg.lambda_base cfg.c_temp cfg.c_light cfg.theta_pwp) *
              cfg.time_step) + cfg.theta_pwp) := by
  constructor
  · intro h0
    rw [humidity_length] at h0
    rw [humidity_getD cfg env h0]
    rfl
  · intro i hi
    rw [humidity_length] at hi
    rw [humidity_getD cfg env hi, humidity_getD cfg env (Nat.lt_of_succ_lt hi)]
    rfl

theorem C2_witness :
    (full_data cfgSmall envZ).humidity.getD 0 0 = cfgSmall.theta_init := by
  refine (C2_exponential_update cfgSmall envZ).1 ?_
  rw [humidity_length, nSteps_cfgSmall]
  norm_num

/-- C10: the final entries of the light and temperature series are never
written by the simulation loop and stay 0; the loop samples the environment
only at indices 0 .. N-2; and the final humidity entry is the result of the
final moisture update. -/
theorem C10_last_sample_unassigned (cfg : Config) (env : ℕ → EnvInput)
    (hN : 1 ≤ nSteps cfg) :
    (full_data cfg env).light.getD (nSteps cfg - 1) 1 = 0 ∧
    (full_data cfg env).temp.getD (nSteps cfg - 1) 1 = 0 ∧
    (∀ i, i < nSteps cfg - 1 →
      (full_data cfg env).light.getD i 0 = lightAt cfg env i ∧
      (full_data cfg env).temp.getD i 0 = tempAt cfg env i) ∧
    (2 ≤ nSteps cfg →
      (full_data cfg env).humidity.getD (nSteps cfg - 1) 0 =
        max 0 ((resetTheta cfg env (nSteps cfg - 2) - cfg.theta_pwp) *
            Real.exp (-(lambdaAt cfg env (nSteps cfg - 2)) * cfg.time_step) +
          cfg.theta_pwp)) := by
  have hlt : nSteps cfg - 1 < nSteps cfg := by omega
  refine ⟨?_, ?_, ?_, ?_⟩
  · rw [light_getD cfg env hlt]
    simp
  · rw [temp_getD cfg env hlt]
    simp
  · intro i hi
    have hi' : i < nSteps cfg := by omega
    rw [light_getD cfg env hi', temp_getD cfg env hi', if_pos hi, if_pos hi]
    exact ⟨rfl, rfl⟩
  · intro h2
    rw [humidity_getD cfg env hlt]
    have heq : nSteps cfg - 1 = (nSteps cfg - 2) + 1 := by omega
    rw [heq, thetaSeq_succ]

theorem C10_witness :
    (full_data cfgSmall envZ).light.getD (nSteps cfgSmall - 1) 1 = 0 := by
  refine (C10_last_sample_unassigned cfgSmall envZ ?_).1
  rw [nSteps_cfgSmall]
  norm_num

/-! ### Claim C3 (corrected): moisture bounds -/

/-- A configuration satisfying the stated invariants (theta_pwp < theta_init,
time_step > 0) whose initial moisture already exceeds 100. -/
def cfgInit150 : Config :=
  ⟨20, 10, 150, 15, 0.8, 0.6, 0.00005, 0.000015, 0.00002, 1000, 22, 3, 120⟩

theorem nSteps_cfgInit150 : nSteps cfgInit150 = 2 := by
  have h : totalSteps cfgInit150 = 2 := by norm_num [totalSteps, pyTrunc, cfgInit150]
  simp [nSteps, h]

/-- C3 counterexample: under the stated config invariants alone the generated
moisture is not confined to the interval 0..100: with theta_init = 150 (and
theta_pwp = 15 < 150, time_step = 10 > 0) the very first sample is 150. -/
theorem C3_counterexample :
    cfgInit150.theta_pwp < cfgInit150.theta_init ∧ 0 < cfgInit150.time_step ∧
    (full_data cfgInit150 envZ).humidity.getD 0 0 = 150 ∧
    ¬ (full_data cfgInit150 envZ).humidity.getD 0 0 ≤ 100 := by
  have h0 : (0 : ℕ) < nSteps cfgInit150 := by rw [nSteps_cfgInit150]; norm_num
  refine ⟨by norm_num [cfgInit150], by norm_num [cfgInit150], ?_, ?_⟩ <;>
    rw [humidity_getD cfgInit150 envZ h0] <;> norm_num [thetaSeq, cfgInit150]

/-- C3 amended: if additionally 0 ≤ theta_pwp, theta_init ≤ 100 and every
decay rate computed along the run is non-negative, then every generated
moisture value lies in the interval 0..100. -/
theorem C3_amended_moisture_bounds (cfg : Config) (env : ℕ → EnvInput)
    (hpwp : 0 ≤ cfg.theta_pwp) (hlt : cfg.theta_pwp < cfg.theta_init)
    (h100 : cfg.theta_init ≤ 100) (hdt : 0 < cfg.time_step)
    (hlam : ∀ i, 0 ≤ lambdaAt cfg env i) :
    ∀ i, i < (full_data cfg env).humidity.length →
      0 ≤ (full_data cfg env).humidity.getD i 0 ∧
        (full_data cfg env).humidity.getD i 0 ≤ 100 := by
  have hinit : (0 : ℝ) ≤ cfg.theta_init := le_of_lt (lt_of_le_of_lt hpwp hlt)
  have key : ∀ i, 0 ≤ thetaSeq cfg env i ∧ thetaSeq cfg env i ≤ 100 := by
    intro i
    induction i with
    | zero => exact ⟨hinit, h100⟩
    | succ i ih =>
      rw [thetaSeq_succ]
      refine ⟨le_max_left 0 _, max_le (by norm_num) ?_⟩
      have hres : 0 ≤ resetTheta cfg env i ∧ resetTheta cfg env i ≤ 100 := by
        unfold resetTheta
        split
        · exact ⟨hinit, h100⟩
        · exact ih
      have hE1 : Real.exp (-(lambdaAt cfg env i) * cfg.time_step) ≤ 1 := by
        rw [Real.exp_le_one_iff]
        have := mul_nonneg (hlam i) hdt.le
        linarith
      have hE0 : (0 : ℝ) < Real.exp (-(lambdaAt cfg env i) * cfg.time_step) :=
        Real.exp_pos _
      rcases le_or_lt cfg.theta_pwp (resetTheta cfg env i) with hc | hc
      · have h1 : (resetTheta cfg env i - cfg.theta_pwp) *
            Real.exp (-(lambdaAt cfg env i) * cfg.time_step) ≤
            resetTheta cfg env i - cfg.theta_pwp :=
          mul_le_of_le_one_right (sub_nonneg.2 hc) hE1
        linarith [hres.2]
      · nlinarith [mul_pos (sub_pos.mpr hc) hE0, hres.2, lt_of_lt_of_le hlt h100]
  intro i hi
  rw [humidity_length] at hi
  rw [humidity_getD cfg env hi]
  exact key i

/-- Coefficients set so that every decay rate is exactly 0 (lambda_base,
c_temp and c_light all zero), used to exhibit a run satisfying the
amended-C3 hypotheses. -/
def cfgLam0 : Config := ⟨20, 10, 90, 15, 0.8, 0.6, 0, 0, 0, 1000, 22, 3, 120⟩

theorem nSteps_cfgLam0 : nSteps cfgLam0 = 2 := by
  have h : totalSteps cfgLam0 = 2 := by norm_num [totalSteps, pyTrunc, cfgLam0]
  simp [nSteps, h]

theorem calculate_lambda_zero_coeffs (T L theta K_soil K_crop theta_pwp : ℝ) :
    calculate_lambda T L theta K_soil K_crop 0 0 0 theta_pwp = 0 := by
  simp [calculate_lambda]

theorem C3_witness :
    0 ≤ (full_data cfgLam0 envZ).humidity.getD 0 0 ∧
      (full_data cfgLam0 envZ).humidity.getD 0 0 ≤ 100 := by
  refine C3_amended_moisture_bounds cfgLam0 envZ (by norm_num [cfgLam0])
    (by norm_num [cfgLam0]) (by norm_num [cfgLam0]) (by norm_num [cfgLam0])
    (fun i => ?_) 0 ?_
  · unfold lambdaAt
    rw [show cfgLam0.lambda_base = 0 from rfl, show cfgLam0.c_temp = 0 from rfl,
      show cfgLam0.c_light = 0 from rfl, calculate_lambda_zero_coeffs]
  · rw [humidity_length, nSteps_cfgLam0]
    norm_num

/-! ### Claim C4 (corrected): sign of the decay rate -/

/-- A configuration with a strongly negative average temperature (an input
the temperature model can also reach through its unbounded Gaussian noise),
zero light peak and zero temperature amplitude. -/
def cfgC4 : Config :=
  ⟨20, 10, 90, 15, 0.8, 0.6, 0.00005, 0.000015, 0.00002, 0, -100, 0, 120⟩

/-- C4 counterexample: the decay rate computed in step 0 of a full_data run
with cfgC4 is negative: lambda = 0.00005 * 0.8 + 0.6 * (0.000015 * (-100) +
0.00002 * 0) = -0.00086 < 0. -/
theorem C4_counterexample : lambdaAt cfgC4 envZ 0 < 0 := by
  have hT : tempAt cfgC4 envZ 0 = -100 := by
    simp [tempAt, get_temperature, cfgC4, envZ]
  have hL : lightAt cfgC4 envZ 0 = 0 := by
    simp [lightAt, get_light, cfgC4, envZ]
  have hth : resetTheta cfgC4 envZ 0 = 90 := by
    norm_num [resetTheta, thetaSeq, cfgC4]
  unfold lambdaAt
  rw [hT, hL, hth]
  norm_num [calculate_lambda, cfgC4]

/-- C4 amended: a decay rate computed during a run of full_data is
non-negative whenever the configured coefficients are non-negative and the
step's temperature sample is non-negative (light samples are non-negative
by construction; the claim fails without the temperature hypothesis because
the temperature model is unbounded below). -/
theorem C4_amended_lambda_nonneg (cfg : Config) (env : ℕ → EnvInput) (i : ℕ)
    (hKs : 0 ≤ cfg.K_soil) (hKc : 0 ≤ cfg.K_crop) (hlb : 0 ≤ cfg.lambda_base)
    (hct : 0 ≤ cfg.c_temp) (hcl : 0 ≤ cfg.c_light)
    (hT : 0 ≤ tempAt cfg env i) :
    0 ≤ lambdaAt cfg env i := by
  have hL : 0 ≤ lightAt cfg env i := le_max_left 0 _
  have hbase : 0 ≤ cfg.lambda_base * cfg.K_soil +
      cfg.K_crop * (cfg.c_temp * tempAt cfg env i + cfg.c_light * lightAt cfg env i) :=
    add_nonneg (mul_nonneg hlb hKs)
      (mul_nonneg hKc (add_nonneg (mul_nonneg hct hT) (mul_nonneg hcl hL)))
  unfold lambdaAt calculate_lambda
  split
  · exact mul_nonneg hbase
      (le_min (le_trans (by norm_num) (le_max_right _ _)) (by norm_num))
  · exact hbase

/-- Like the defaults but with zero temperature amplitude, so the step-0
temperature sample is exactly T_avg = 22. -/
def cfgC4w : Config :=
  ⟨20, 10, 90, 15, 0.8, 0.6, 0.00005, 0.000015, 0.00002, 1000, 22, 0, 120⟩

theorem C4_witness : 0 ≤ lambdaAt cfgC4w envZ 0 := by
  refine C4_amended_lambda_nonneg cfgC4w envZ 0 (by norm_num [cfgC4w])
    (by norm_num [cfgC4w]) (by norm_num [cfgC4w]) (by norm_num [cfgC4w])
    (by norm_num [cfgC4w]) ?_
  have hT : tempAt cfgC4w envZ 0 = 22 := by
    simp [tempAt, get_temperature, cfgC4w, envZ]
  rw [hT]
  norm_num

/-! ### Claim C5 (corrected): the time grid -/

/-- C5 counterexample: with total_time_minutes = 20 and time_step = 10 the
second time entry is 20 (np.linspace spacing total/(N-1)), not
1 * time_step = 10. -/
theorem C5_counterexample :
    (full_data cfgSmall envZ).time.getD 1 0 = 20 ∧
    (full_data cfgSmall envZ).time.getD 1 0 ≠ ((1 : ℕ) : ℝ) * cfgSmall.time_step := by
  have h1 : (full_data cfgSmall envZ).time.getD 1 0 = timeVal cfgSmall 1 :=
    time_getD cfgSmall envZ (by rw [nSteps_cfgSmall]; norm_num) 0
  rw [h1]
  unfold timeVal
  rw [nSteps_cfgSmall]
  constructor <;> norm_num [cfgSmall]

/-- C5 amended: the time sequence has floor(total_time_minutes / time_step)
entries and is strictly increasing with the fixed np.linspace spacing
total_time_minutes / (total_steps - 1) (so time i = i * that spacing), which
in general differs from the configured time_step. -/
theorem C5_amended_time_grid (cfg : Config) (env : ℕ → EnvInput)
    (hdt : 0 < cfg.time_step) (htot : 0 < cfg.total_time_minutes) :
    (full_data cfg env).time.length = ⌊cfg.total_time_minutes / cfg.time_step⌋₊ ∧
    (∀ i, i < (full_data cfg env).time.length →
      (full_data cfg env).time.getD i 0 =
        cfg.total_time_minutes * i / ((nSteps cfg - 1 : ℕ) : ℝ)) ∧
    (∀ i j, i < j → j < (full_data cfg env).time.length →
      (full_data cfg env).time.getD i 0 < (full_data cfg env).time.getD j 0) ∧
    (∀ i, i + 1 < (full_data cfg env).time.length →
      (full_data cfg env).time.getD (i + 1) 0 - (full_data cfg env).time.getD i 0 =
        cfg.total_time_minutes / ((nSteps cfg - 1 : ℕ) : ℝ)) := by
  have hx : (0 : ℝ) ≤ cfg.total_time_minutes / cfg.time_step :=
    div_nonneg htot.le hdt.le
  refine ⟨?_, ?_, ?_, ?_⟩
  · rw [time_length]
    unfold nSteps totalSteps pyTrunc
    rw [if_pos hx]
    exact Int.floor_toNat _
  · intro i hi
    rw [time_length] at hi
    rw [time_getD cfg env hi]
    rfl
  · intro i j hij hj
    rw [time_length] at hj
    have hi : i < nSteps cfg := lt_trans hij hj
    rw [time_getD cfg env hi, time_getD cfg env hj]
    unfold timeVal
    have hN2 : 2 ≤ nSteps cfg := by omega
    have hD : (0 : ℝ) < ((nSteps cfg - 1 : ℕ) : ℝ) := by
      have h1 : 1 ≤ nSteps cfg - 1 := by omega
      exact_mod_cast Nat.lt_of_lt_of_le Nat.zero_lt_one h1
    rw [div_lt_div_iff_of_pos_right hD]
    exact mul_lt_mul_of_pos_left (by exact_mod_cast hij) htot
  · intro i hi
    rw [time_length] at hi
    rw [time_getD cfg env hi, time_getD cfg env (Nat.lt_of_succ_lt hi)]
    unfold timeVal
    rw [← sub_div]
    congr 1
    push_cast
    ring

theorem C5_witness :
    (full_data cfgSmall envZ).time.length =
      ⌊cfgSmall.total_time_minutes / cfgSmall.time_step⌋₊ :=
  (C5_amended_time_grid cfgSmall envZ (by norm_num [cfgSmall])
    (by norm_num [cfgSmall])).1

/-! ### Claim C8 (corrected): no configuration validation -/

/-- Whether a modelled call returned a value rather than raising. -/
def callOk (r : Except PyErr SimOutput) : Bool :=
  match r with
  | .ok _ => true
  | .error _ => false

/-- A configuration with non-positive theta_pwp and an otherwise valid
horizon. -/
def cfgPwpNeg : Config :=
  ⟨20, 10, 90, -5, 0.8, 0.6, 0.00005, 0.000015, 0.00002, 1000, 22, 3, 120⟩

theorem totalSteps_cfgPwpNeg : totalSteps cfgPwpNeg = 2 := by
  norm_num [totalSteps, pyTrunc, cfgPwpNeg]

/-- C8 counterexample: a configuration with non-positive theta_pwp is not
rejected; the simulation entry point runs it to completion. -/
theorem C8_counterexample :
    cfgPwpNeg.theta_pwp ≤ 0 ∧
    full_data_call cfgPwpNeg envZ = Except.ok (full_data cfgPwpNeg envZ) := by
  refine ⟨by norm_num [cfgPwpNeg], ?_⟩
  unfold full_data_call
  rw [if_neg (by norm_num [cfgPwpNeg]), if_neg (by rw [totalSteps_cfgPwpNeg]; norm_num),
    if_neg (by rw [totalSteps_cfgPwpNeg]; norm_num), if_neg (by norm_num [cfgPwpNeg])]

/-- C8 amended: the entry point performs no configuration validation and
never produces an invalid-configuration error. A call succeeds exactly when
time_step is nonzero, the computed step count is at least 1, and not
(theta_pwp = 0 with theta_init ≤ 0 and at least two steps) — in the failing
cases Python raises ZeroDivisionError, ValueError or IndexError, the last
ZeroDivisionError coming from theta / theta_pwp inside calculate_lambda. In
particular a strictly negative theta_pwp with a valid horizon always runs to
completion, so non-positive theta_pwp is never rejected up front. -/
theorem C8_amended_no_validation (cfg : Config) (env : ℕ → EnvInput) :
    full_data_call cfg env ≠ Except.error PyErr.invalidConfig ∧
    (callOk (full_data_call cfg env) = true ↔
      cfg.time_step ≠ 0 ∧ 1 ≤ totalSteps cfg ∧
        ¬(cfg.theta_pwp = 0 ∧ cfg.theta_init ≤ 0 ∧ 2 ≤ totalSteps cfg)) ∧
    (cfg.theta_pwp < 0 → cfg.time_step ≠ 0 → 1 ≤ totalSteps cfg →
      full_data_call cfg env = Except.ok (full_data cfg env)) := by
  unfold full_data_call
  split_ifs with h1 h2 h3 h4
  · refine ⟨by simp, iff_of_false (by simp [callOk]) ?_, fun _ hdt _ => absurd h1 hdt⟩
    rintro ⟨hdt, -, -⟩
    exact hdt h1
  · refine ⟨by simp, iff_of_false (by simp [callOk]) ?_, fun _ _ hs => by omega⟩
    rintro ⟨-, hs, -⟩
    omega
  · refine ⟨by simp, iff_of_false (by simp [callOk]) ?_, fun _ _ hs => by omega⟩
    rintro ⟨-, hs, -⟩
    omega
  · refine ⟨by simp, iff_of_false (by simp [callOk]) ?_, fun hpwp _ _ => ?_⟩
    · rintro ⟨-, -, hno⟩
      exact hno h4
    · rw [h4.1] at hpwp
      exact absurd hpwp (lt_irrefl 0)
  · exact ⟨by simp, iff_of_true rfl ⟨h1, by omega, h4⟩, fun _ _ _ => rfl⟩

theorem C8_witness :
    full_data_call cfgPwpNeg envZ = Except.ok (full_data cfgPwpNeg envZ) :=
  (C8_amended_no_validation cfgPwpNeg envZ).2.2 (by norm_num [cfgPwpNeg])
    (by norm_num [cfgPwpNeg]) (by rw [totalSteps_cfgPwpNeg]; norm_num)

/-! ### Claim C9 (confirmed): the streaming message sequence -/

theorem stream_data_getD_lt (df : List (List ℝ)) {i : ℕ} (hi : i < df.length) :
    (stream_data df).getD i StreamMsg.complete =
      StreamMsg.record i (flat_columns.zip (df.getD i [])) := by
  unfold stream_data
  rw [List.getD_append _ _ _ _ (by simpa using hi)]
  have hl : i < (df.enum.map fun p => StreamMsg.record p.1 (flat_columns.zip p.2)).length := by
    simpa using hi
  rw [List.getD_eq_getElem _ _ hl]
  simp [List.getD_eq_getElem _ _ hi, List.getElem?_eq_getElem hi]

/-- C9: for an aggregated table with n rows, stream_data yields exactly n+1
messages: one data record per row, in row order, carrying index 0..n-1 and
the flattened signal_statistic names zipped with the row values, followed by
the single Stream-complete sentinel (so a 3-row table yields exactly 4
messages). -/
theorem C9_stream_messages (df : List (List ℝ)) :
    (stream_data df).length = df.length + 1 ∧
    (∀ i, i < df.length →
      (stream_data df).getD i StreamMsg.complete =
        StreamMsg.record i (flat_columns.zip (df.getD i []))) ∧
    (stream_data df).getD df.length StreamMsg.complete = StreamMsg.complete ∧
    (df.length = 3 → (stream_data df).length = 4) := by
  refine ⟨?_, ?_, ?_, ?_⟩
  · simp [stream_data]
  · intro i hi
    exact stream_data_getD_lt df hi
  · unfold stream_data
    rw [List.getD_append_right _ _ _ _ (by simp)]
    simp
  · intro h3
    simp [stream_data, h3]

theorem C9_witness :
    (stream_data [[1], [2], [3]]).length = 4 :=
  (C9_stream_messages [[1], [2], [3]]).2.2.2 rfl

/-! ### Claim C6 (confirmed): shape of the aggregated table -/

theorem blockStats_length (b : List ℝ) : (blockStats b).length = 5 := rfl

theorem aggRows_length (k : ℕ) (hum light temp : List ℝ) :
    (aggRows k hum light temp).length = hum.length / k := by
  simp [aggRows]

theorem aggRows_getD (k : ℕ) (hum light temp : List ℝ) {j : ℕ}
    (hj : j < hum.length / k) :
    (aggRows k hum light temp).getD j [] =
      blockStats (blockOf k hum j) ++ blockStats (blockOf k light j) ++
        blockStats (blockOf k temp j) := by
  unfold aggRows
  exact getD_map_range _ _ hj

theorem blockOf_take {k m j : ℕ} (xs : List ℝ) (hjk : j * k + k ≤ m) :
    blockOf k (xs.take m) j = blockOf k xs j := by
  unfold blockOf
  rw [List.take_drop, List.take_take, List.take_drop]
  congr 2
  omega

theorem aggRows_drop_remainder (k : ℕ) (hk : 1 ≤ k) (hum light temp : List ℝ) :
    aggRows k (hum.take (hum.length / k * k)) (light.take (hum.length / k * k))
        (temp.take (hum.length / k * k)) =
      aggRows k hum light temp := by
  unfold aggRows
  have hm : (hum.take (hum.length / k * k)).length = hum.length / k * k := by
    simp [Nat.div_mul_le_self]
  rw [hm, Nat.mul_div_cancel _ hk]
  refine List.map_congr_left fun j hj => ?_
  rw [List.mem_range] at hj
  have hjk : j * k + k ≤ hum.length / k * k := by
    calc j * k + k = (j + 1) * k := by ring
    _ ≤ hum.length / k * k := Nat.mul_le_mul_right k hj
  rw [blockOf_take hum hjk, blockOf_take light hjk, blockOf_take temp hjk]

/-- The defaults of synthetic_dataset: total_time_minutes = 7200,
time_step = 10, and the standard soil and weather parameters. -/
def cfgAgg : Config :=
  ⟨7200, 10, 90, 15, 0.8, 0.6, 0.00005, 0.000015, 0.00002, 1000, 22, 3, 120⟩

/-- C6: for block size k ≥ 1 the aggregated table has floor(N/k) rows of 15
columns each — per row the humidity block statistics, then the light block
statistics, then the temperature block statistics, each in the order mean,
min, max, 25th, 75th (see blockStats) — the trailing N mod k samples are
dropped (aggregating the truncated series gives the same table), and the
default configuration total_time_minutes = 7200, time_step = 10 with k = 6
yields 120 rows. -/
theorem C6_table_shape (k : ℕ) (hk : 1 ≤ k) (cfg : Config) (env : ℕ → EnvInput) :
    (synthetic_dataset k cfg env).length = (full_data cfg env).humidity.length / k ∧
    (∀ row ∈ synthetic_dataset k cfg env, row.length = 15) ∧
    (∀ j, j < (full_data cfg env).humidity.length / k →
      (synthetic_dataset k cfg env).getD j [] =
        blockStats (blockOf k (full_data cfg env).humidity j) ++
          blockStats (blockOf k (full_data cfg env).light j) ++
          blockStats (blockOf k (full_data cfg env).temp j)) ∧
    (aggRows k
        ((full_data cfg env).humidity.take ((full_data cfg env).humidity.length / k * k))
        ((full_data cfg env).light.take ((full_data cfg env).humidity.length / k * k))
        ((full_data cfg env).temp.take ((full_data cfg env).humidity.length / k * k)) =
      synthetic_dataset k cfg env) ∧
    (cfg.total_time_minutes = 7200 → cfg.time_step = 10 → k = 6 →
      (synthetic_dataset k cfg env).length = 120) := by
  refine ⟨?_, ?_, ?_, ?_, ?_⟩
  · exact aggRows_length k _ _ _
  · intro row hrow
    unfold synthetic_dataset aggRows at hrow
    rw [List.mem_map] at hrow
    obtain ⟨j, _, rfl⟩ := hrow
    rfl
  · intro j hj
    exact aggRows_getD k _ _ _ hj
  · exact aggRows_drop_remainder k hk _ _ _
  · intro htot hdt hk6
    unfold synthetic_dataset
    rw [aggRows_length, humidity_length, hk6]
    have hN : nSteps cfg = 720 := by
      have h : totalSteps cfg = 720 := by
        norm_num [totalSteps, pyTrunc, htot, hdt]
      simp [nSteps, h]
    rw [hN]

theorem C6_witness : (synthetic_dataset 6 cfgAgg envZ).length = 120 :=
  (C6_table_shape 6 (by norm_num) cfgAgg envZ).2.2.2.2 rfl rfl rfl

/-! ### Claim C7: order relations between the block statistics -/

theorem foldl_min_le_init (l : List ℝ) (a : ℝ) : l.foldl min a ≤ a := by
  induction l generalizing a with
  | nil => simp
  | cons b t ih =>
    simp only [List.foldl_cons]
    exact le_trans (ih (min a b)) (min_le_left a b)

theorem foldl_min_le_mem (l : List ℝ) (a : ℝ) {x : ℝ} (hx : x ∈ l) :
    l.foldl min a ≤ x := by
  induction l generalizing a with
  | nil => simp at hx
  | cons b t ih =>
    simp only [List.foldl_cons]
    rcases List.mem_cons.mp hx with rfl | hx2
    · exact le_trans (foldl_min_le_init t (min a x)) (min_le_right a x)
    · exact ih (min a b) hx2

theorem init_le_foldl_max (l : List ℝ) (a : ℝ) : a ≤ l.foldl max a := by
  induction l generalizing a with
  | nil => simp
  | cons b t ih =>
    simp only [List.foldl_cons]
    exact le_trans (le_max_left a b) (ih (max a b))

theorem mem_le_foldl_max (l : List ℝ) (a : ℝ) {x : ℝ} (hx : x ∈ l) :
    x ≤ l.foldl max a := by
  induction l generalizing a with
  | nil => simp at hx
  | cons b t ih =>
    simp only [List.foldl_cons]
    rcases List.mem_cons.mp hx with rfl | hx2
    · exact le_trans (le_max_right a x) (init_le_foldl_max t (max a x))
    · exact ih (max a b) hx2

theorem np_min_le_mem {xs : List ℝ} {x : ℝ} (hx : x ∈ xs) : np_min xs ≤ x := by
  cases xs with
  | nil => simp at hx
  | cons h t =>
    rcases List.mem_cons.mp hx with rfl | hx2
    · exact foldl_min_le_init t x
    · exact foldl_min_le_mem t h hx2

theorem mem_le_np_max {xs : List ℝ} {x : ℝ} (hx : x ∈ xs) : x ≤ np_max xs := by
  cases xs with
  | nil => simp at hx
  | cons h t =>
    rcases List.mem_cons.mp hx with rfl | hx2
    · exact init_le_foldl_max t x
    · exact mem_le_foldl_max t h hx2

theorem np_min_le_np_mean {xs : List ℝ} (hne : xs ≠ []) : np_min xs ≤ np_mean xs := by
  have hlen : (0 : ℝ) < (xs.length : ℝ) := by
    exact_mod_cast List.length_pos.mpr hne
  unfold np_mean
  rw [le_div_iff₀ hlen]
  have h := List.card_nsmul_le_sum xs (np_min xs) fun x hx => np_min_le_mem hx
  rw [nsmul_eq_mul] at h
  linarith [h]

theorem np_mean_le_np_max {xs : List ℝ} (hne : xs ≠ []) : np_mean xs ≤ np_max xs := by
  have hlen : (0 : ℝ) < (xs.length : ℝ) := by
    exact_mod_cast List.length_pos.mpr hne
  unfold np_mean
  rw [div_le_iff₀ hlen]
  have h := List.sum_le_card_nsmul xs (np_max xs) fun x hx => mem_le_np_max hx
  rw [nsmul_eq_mul] at h
  linarith [h]

theorem sorted_getD_mono {s : List ℝ} (hs : s.Sorted (· ≤ ·)) {i j : ℕ}
    (hij : i ≤ j) (hj : j < s.length) : s.getD i 0 ≤ s.getD j 0 := by
  rcases eq_or_lt_of_le hij with rfl | hlt
  · exact le_refl _
  · have hi : i < s.length := lt_trans hlt hj
    rw [List.getD_eq_getElem _ _ hi, List.getD_eq_getElem _ _ hj]
    have h := hs.rel_get_of_lt (a := ⟨i, hi⟩) (b := ⟨j, hj⟩) hlt
    simpa using h

theorem interpSorted_ge_floor {s : List ℝ} (hs : s.Sorted (· ≤ ·)) {pos : ℝ}
    (h0 : 0 ≤ pos) (hub : ⌈pos⌉₊ < s.length) :
    s.getD ⌊pos⌋₊ 0 ≤ interpSorted s pos := by
  unfold interpSorted
  have hfl : (⌊pos⌋₊ : ℝ) ≤ pos := Nat.floor_le h0
  have hab : s.getD ⌊pos⌋₊ 0 ≤ s.getD ⌈pos⌉₊ 0 :=
    sorted_getD_mono hs (Nat.floor_le_ceil pos) hub
  have h := mul_nonneg (sub_nonneg.2 hfl) (sub_nonneg.2 hab)
  linarith

theorem interpSorted_le_ceil {s : List ℝ} (hs : s.Sorted (· ≤ ·)) {pos : ℝ}
    (h0 : 0 ≤ pos) (hub : ⌈pos⌉₊ < s.length) :
    interpSorted s pos ≤ s.getD ⌈pos⌉₊ 0 := by
  unfold interpSorted
  have hab : s.getD ⌊pos⌋₊ 0 ≤ s.getD ⌈pos⌉₊ 0 :=
    sorted_getD_mono hs (Nat.floor_le_ceil pos) hub
  have hfr : pos - (⌊pos⌋₊ : ℝ) ≤ 1 := by
    have h := Nat.lt_floor_add_one pos
    push_cast at h
    linarith
  have h := mul_le_of_le_one_left (sub_nonneg.2 hab) hfr
  linarith

theorem interpSorted_mono {s : List ℝ} (hs : s.Sorted (· ≤ ·)) {p q : ℝ}
    (h0 : 0 ≤ p) (hpq : p ≤ q) (hub : ⌈q⌉₊ < s.length) :
    interpSorted s p ≤ interpSorted s q := by
  have h0q : 0 ≤ q := le_trans h0 hpq
  have hubp : ⌈p⌉₊ < s.length := lt_of_le_of_lt (Nat.ceil_mono hpq) hub
  rcases le_or_lt ⌈p⌉₊ ⌊q⌋₊ with hcase | hcase
  · have h1 := interpSorted_le_ceil hs h0 hubp
    have hflq : ⌊q⌋₊ < s.length := lt_of_le_of_lt (Nat.floor_le_ceil q) hub
    have h2 := sorted_getD_mono hs hcase hflq
    have h3 := interpSorted_ge_floor hs h0q hub
    linarith
  · have hfl_le : ⌊p⌋₊ ≤ ⌊q⌋₊ := Nat.floor_mono hpq
    have hc1 : ⌈p⌉₊ ≤ ⌊p⌋₊ + 1 := Nat.ceil_le_floor_add_one p
    have hff : ⌊p⌋₊ = ⌊q⌋₊ := by omega
    have hcp : ⌈p⌉₊ = ⌊p⌋₊ + 1 := by omega
    have hpf : (⌊p⌋₊ : ℝ) < p := by
      rcases lt_or_eq_of_le (Nat.floor_le h0) with h | h
      · exact h
      · exfalso
        have hle : ⌈p⌉₊ ≤ ⌊p⌋₊ := Nat.ceil_le.mpr (le_of_eq h.symm)
        omega
    have hqf : (⌊q⌋₊ : ℝ) < q := by
      rw [← hff]
      linarith
    have hcq : ⌈q⌉₊ = ⌊q⌋₊ + 1 := by
      have h1 : ⌊q⌋₊ < ⌈q⌉₊ := Nat.lt_ceil.mpr hqf
      have h2 := Nat.ceil_le_floor_add_one q
      omega
    unfold interpSorted
    rw [hcp, hcq, hff]
    have hab : s.getD ⌊q⌋₊ 0 ≤ s.getD (⌊q⌋₊ + 1) 0 := by
      refine sorted_getD_mono hs (Nat.le_succ _) ?_
      rw [← hcq]
      exact hub
    have h := mul_le_mul_of_nonneg_right
      (show p - ((⌊q⌋₊ : ℕ) : ℝ) ≤ q - ((⌊q⌋₊ : ℕ) : ℝ) by linarith)
      (sub_nonneg.2 hab)
    linarith

theorem np_percentile_between {xs : List ℝ} (hne : xs ≠ []) {q : ℝ}
    (hq0 : 0 ≤ q) (hq1 : q ≤ 100) :
    np_min xs ≤ np_percentile q xs ∧ np_percentile q xs ≤ np_max xs := by
  have hs : (xs.insertionSort (· ≤ ·)).Sorted (· ≤ ·) :=
    List.sorted_insertionSort _ xs
  have hslen : (xs.insertionSort (· ≤ ·)).length = xs.length :=
    List.length_insertionSort _ xs
  have hxl : 1 ≤ xs.length := List.length_pos.mpr hne
  have h0 : 0 ≤ q / 100 * ((xs.length - 1 : ℕ) : ℝ) :=
    mul_nonneg (div_nonneg hq0 (by norm_num)) (Nat.cast_nonneg _)
  have hposle : q / 100 * ((xs.length - 1 : ℕ) : ℝ) ≤ ((xs.length - 1 : ℕ) : ℝ) :=
    mul_le_of_le_one_left (Nat.cast_nonneg _) ((div_le_one (by norm_num)).2 hq1)
  have hub : ⌈q / 100 * ((xs.length - 1 : ℕ) : ℝ)⌉₊ < (xs.insertionSort (· ≤ ·)).length := by
    rw [hslen]
    have h := Nat.ceil_le.2 hposle
    omega
  have hflt : ⌊q / 100 * ((xs.length - 1 : ℕ) : ℝ)⌋₊ < (xs.insertionSort (· ≤ ·)).length :=
    lt_of_le_of_lt (Nat.floor_le_ceil _) hub
  have hmemf : (xs.insertionSort (· ≤ ·)).getD ⌊q / 100 * ((xs.length - 1 : ℕ) : ℝ)⌋₊ 0 ∈ xs := by
    rw [List.getD_eq_getElem _ _ hflt]
    exact (List.perm_insertionSort _ xs).subset (List.getElem_mem _)
  have hmemc : (xs.insertionSort (· ≤ ·)).getD ⌈q / 100 * ((xs.length - 1 : ℕ) : ℝ)⌉₊ 0 ∈ xs := by
    rw [List.getD_eq_getElem _ _ hub]
    exact (List.perm_insertionSort _ xs).subset (List.getElem_mem _)
  unfold np_percentile
  exact ⟨le_trans (np_min_le_mem hmemf) (interpSorted_ge_floor hs h0 hub),
    le_trans (interpSorted_le_ceil hs h0 hub) (mem_le_np_max hmemc)⟩

theorem np_percentile_mono {xs : List ℝ} (hne : xs ≠ []) {q q2 : ℝ}
    (hq0 : 0 ≤ q) (hqq : q ≤ q2) (hq1 : q2 ≤ 100) :
    np_percentile q xs ≤ np_percentile q2 xs := by
  have hs : (xs.insertionSort (· ≤ ·)).Sorted (· ≤ ·) :=
    List.sorted_insertionSort _ xs
  have hslen : (xs.insertionSort (· ≤ ·)).length = xs.length :=
    List.length_insertionSort _ xs
  have hxl : 1 ≤ xs.length := List.length_pos.mpr hne
  have h0 : 0 ≤ q / 100 * ((xs.length - 1 : ℕ) : ℝ) :=
    mul_nonneg (div_nonneg hq0 (by norm_num)) (Nat.cast_nonneg _)
  have hpq : q / 100 * ((xs.length - 1 : ℕ) : ℝ) ≤ q2 / 100 * ((xs.length - 1 : ℕ) : ℝ) :=
    mul_le_mul_of_nonneg_right (by linarith) (Nat.cast_nonneg _)
  have hposle : q2 / 100 * ((xs.length - 1 : ℕ) : ℝ) ≤ ((xs.length - 1 : ℕ) : ℝ) :=
    mul_le_of_le_one_left (Nat.cast_nonneg _) ((div_le_one (by norm_num)).2 hq1)
  have hub : ⌈q2 / 100 * ((xs.length - 1 : ℕ) : ℝ)⌉₊ < (xs.insertionSort (· ≤ ·)).length := by
    rw [hslen]
    have h := Nat.ceil_le.2 hposle
    omega
  unfold np_percentile
  exact interpSorted_mono hs h0 hpq hub

/-- The full order structure of the five block statistics, for an arbitrary
block. -/
theorem blockStats_chain (b : List ℝ) :
    np_min b ≤ np_percentile 25 b ∧ np_percentile 25 b ≤ np_percentile 75 b ∧
    np_percentile 75 b ≤ np_max b ∧ np_min b ≤ np_mean b ∧ np_mean b ≤ np_max b := by
  rcases eq_or_ne b [] with rfl | hne
  · norm_num [np_min, np_max, np_mean, np_percentile, interpSorted]
  · refine ⟨(np_percentile_between hne (by norm_num) (by norm_num)).1,
      np_percentile_mono hne (by norm_num) (by norm_num) (by norm_num),
      (np_percentile_between hne (by norm_num) (by norm_num)).2,
      np_min_le_np_mean hne, np_mean_le_np_max hne⟩

/-- A block on which the 25th percentile exceeds the mean. -/
def blockC7 : List ℝ := [0, 1, 1, 1, 1]

theorem blockC7_sorted : blockC7.insertionSort (· ≤ ·) = blockC7 := by
  norm_num [blockC7, List.insertionSort, List.orderedInsert]

theorem blockC7_p25 : np_percentile 25 blockC7 = 1 := by
  unfold np_percentile
  rw [blockC7_sorted]
  have hpos : (25 : ℝ) / 100 * ((blockC7.length - 1 : ℕ) : ℝ) = 1 := by
    norm_num [blockC7]
  rw [hpos]
  unfold interpSorted
  rw [Nat.floor_one, Nat.ceil_one]
  rw [show blockC7.getD 1 0 = 1 from rfl]
  norm_num

theorem blockC7_mean : np_mean blockC7 = 4 / 5 := by
  norm_num [np_mean, blockC7]

/-- C7 counterexample: on the single aggregated block 0,1,1,1,1 (block size
k = 5) the 25th percentile is 1 while the mean is 0.8, so the claimed chain
min ≤ p25 ≤ mean fails by 0.2, far beyond the 1e-9 tolerance. -/
theorem C7_counterexample :
    ((aggRows 5 blockC7 blockC7 blockC7).getD 0 []).getD 3 0 = 1 ∧
    ((aggRows 5 blockC7 blockC7 blockC7).getD 0 []).getD 0 0 = 4 / 5 ∧
    ¬ ((aggRows 5 blockC7 blockC7 blockC7).getD 0 []).getD 3 0 ≤
        ((aggRows 5 blockC7 blockC7 blockC7).getD 0 []).getD 0 0 + 1e-9 := by
  have hj : (0 : ℕ) < blockC7.length / 5 := by norm_num [blockC7]
  have hrow : (aggRows 5 blockC7 blockC7 blockC7).getD 0 [] =
      blockStats blockC7 ++ blockStats blockC7 ++ blockStats blockC7 :=
    aggRows_getD 5 blockC7 blockC7 blockC7 hj
  rw [hrow]
  rw [show (blockStats blockC7 ++ blockStats blockC7 ++ blockStats blockC7).getD 3 0 =
      np_percentile 25 blockC7 from rfl,
    show (blockStats blockC7 ++ blockStats blockC7 ++ blockStats blockC7).getD 0 0 =
      np_mean blockC7 from rfl,
    blockC7_p25, blockC7_mean]
  norm_num

/-- C7 amended: for every aggregated block and each of the three signals the
statistics satisfy min ≤ p25 ≤ p75 ≤ max and min ≤ mean ≤ max (with exact
real arithmetic, hence within any tolerance); the originally claimed
p25 ≤ mean ≤ p75 does not hold in general. Indices within a row: 5s is the
mean, 5s+1 the min, 5s+2 the max, 5s+3 the 25th and 5s+4 the 75th
percentile of signal s. -/
theorem C7_amended_stat_order (k : ℕ) (hum light temp : List ℝ) (row : List ℝ)
    (hrow : row ∈ aggRows k hum light temp) (s : ℕ) (hs : s < 3) :
    row.getD (5 * s + 1) 0 ≤ row.getD (5 * s + 3) 0 ∧
    row.getD (5 * s + 3) 0 ≤ row.getD (5 * s + 4) 0 ∧
    row.getD (5 * s + 4) 0 ≤ row.getD (5 * s + 2) 0 ∧
    row.getD (5 * s + 1) 0 ≤ row.getD (5 * s) 0 ∧
    row.getD (5 * s) 0 ≤ row.getD (5 * s + 2) 0 := by
  unfold aggRows at hrow
  rw [List.mem_map] at hrow
  obtain ⟨j, _, rfl⟩ := hrow
  interval_cases s
  · exact blockStats_chain (blockOf k hum j)
  · exact blockStats_chain (blockOf k light j)
  · exact blockStats_chain (blockOf k temp j)

theorem C7_witness :
    (blockStats [1] ++ blockStats [1] ++ blockStats [1]).getD (5 * 0 + 1) 0 ≤
      (blockStats [1] ++ blockStats [1] ++ blockStats [1]).getD (5 * 0 + 3) 0 ∧
    (blockStats [1] ++ blockStats [1] ++ blockStats [1]).getD (5 * 0 + 3) 0 ≤
      (blockStats [1] ++ blockStats [1] ++ blockStats [1]).getD (5 * 0 + 4) 0 ∧
    (blockStats [1] ++ blockStats [1] ++ blockStats [1]).getD (5 * 0 + 4) 0 ≤
      (blockStats [1] ++ blockStats [1] ++ blockStats [1]).getD (5 * 0 + 2) 0 ∧
    (blockStats [1] ++ blockStats [1] ++ blockStats [1]).getD (5 * 0 + 1) 0 ≤
      (blockStats [1] ++ blockStats [1] ++ blockStats [1]).getD (5 * 0) 0 ∧
    (blockStats [1] ++ blockStats [1] ++ blockStats [1]).getD (5 * 0) 0 ≤
      (blockStats [1] ++ blockStats [1] ++ blockStats [1]).getD (5 * 0 + 2) 0 := by
  refine C7_amended_stat_order 1 [1] [1] [1] _ ?_ 0 (by norm_num)
  unfold aggRows
  rw [List.mem_map]
  exact ⟨0, by norm_num, rfl⟩

end
